import Mathlib

/-!
# Verification of the YouTube data harvester ETL core

A shallow embedding, in Lean 4, of the harvest-normalize-load pipeline of the
`youtube_data_harvester` repository:

* `src/data_processor.py` — `parse_duration`, `process_channel_data`,
  `process_video_data`, `process_comment_data`;
* `src/youtube_api_handler.py` — `get_video_details` (batching),
  `get_comments_of_video` (pagination with a result cap, error handling);
* `src/database_manager.py` — `insert_channel_data`, `insert_video_data`,
  `insert_comment_data` (upsert / append-only insert over the three tables);
* `app.py` — the "Data Warehousing" migration loop (ordering of writes and
  clearing of the in-memory staging collection).

Python dicts holding one of a few known shapes are embedded as structures;
Python strings are Lean `String`s; external collaborators (the YouTube API,
pandas' timestamp parsing, the SQL session) are embedded by their observable
behavior at the call sites the code uses, with failures made explicit as
`Except`/`Option` values or boolean failure oracles.
-/

/-- A Python value as far as `parse_duration` and the transformers inspect it:
a string, an int, or `None` (also standing in for pandas `NaN`, which — like
every non-`str` value — fails the `isinstance(duration_str, str)` test). -/
inductive PyObj : Type where
  | pyStr (s : String)
  | pyInt (n : Int)
  | pyNone
  deriving DecidableEq, Repr

/-- Numeric value of a run of decimal digit characters, as Python's `int()`
computes it on the groups captured by `\d+` (leading zeros allowed). -/
def digitsVal (ds : List Char) : Nat :=
  ds.foldl (fun a c => a * 10 + (c.toNat - 48)) 0

/-- `\d+`-style maximal munch: split a character list into its longest prefix
of decimal digits and the remainder. -/
def munchDigits : List Char → List Char × List Char
  | [] => ([], [])
  | c :: rest =>
    if c.isDigit then
      let p := munchDigits rest
      (c :: p.1, p.2)
    else ([], c :: rest)

/-- One optional captured group `(?:(\d+)u)?` of the duration regex at the
current position: munch digits; if the run is nonempty and followed by the
unit character `u`, consume them and return the captured value, otherwise
match the empty string (group value 0) and leave the input untouched.  This
is exactly what Python's backtracking produces here, because shortening the
digit run can never make the unit character match a digit. -/
def groupOpt (u : Char) (s : List Char) : Nat × List Char :=
  let p := munchDigits s
  match p.2 with
  | [] => (0, s)
  | c :: r2 =>
    if p.1 ≠ [] ∧ c = u then (digitsVal p.1, r2) else (0, s)

/-- `re.match` of `P(?:(\d+)D)?T(?:(\d+)H)?(?:(\d+)M)?(?:(\d+)S)?` against a
character list: anchored at the start, matching a prefix only, returning the
four captured field values (absent group = 0) or `none` when there is no
match. -/
def durationMatch (s : List Char) : Option (Nat × Nat × Nat × Nat) :=
  match s with
  | 'P' :: r1 =>
    let pd := groupOpt 'D' r1
    match pd.2 with
    | 'T' :: r3 =>
      let ph := groupOpt 'H' r3
      let pm := groupOpt 'M' ph.2
      let ps := groupOpt 'S' pm.2
      some (pd.1, ph.1, pm.1, ps.1)
    | _ => none
  | _ => none

/-- `parse_duration` from `src/data_processor.py`: non-`str` input yields 0;
a string is matched (as a prefix) against the duration regex, a failed match
yields 0, and a successful match yields
`days*24*3600 + hours*3600 + minutes*60 + seconds`. -/
def parse_duration : PyObj → Nat
  | .pyStr s =>
    match durationMatch s.data with
    | none => 0
    | some (d, h, m, sec) => d * 24 * 3600 + h * 3600 + m * 60 + sec
  | _ => 0

/-- The character list of one optional duration field: digits followed by the
unit letter when the field is present, empty when absent. -/
def optPart (o : Option (List Char)) (u : Char) : List Char :=
  match o with
  | none => []
  | some ds => ds ++ [u]

/-- Value contributed by one optional field: the numeral value when present,
0 when absent. -/
def valOpt (o : Option (List Char)) : Nat :=
  match o with
  | none => 0
  | some ds => digitsVal ds

/-- The encoded-duration strings "P[n]DT[n]H[n]M[n]S" of the spec, with any
subset of the four fields present, as character lists. -/
def formChars (od oh om os : Option (List Char)) : List Char :=
  'P' :: optPart od 'D' ++ 'T' :: (optPart oh 'H' ++ optPart om 'M' ++ optPart os 'S')

/-- A present field is a nonempty run of decimal digits. -/
def FormOk (o : Option (List Char)) : Prop :=
  ∀ ds, o = some ds → ds ≠ [] ∧ ∀ c ∈ ds, c.isDigit = true

instance (o : Option (List Char)) : Decidable (FormOk o) := by
  unfold FormOk; infer_instance

/-- A trailing-junk list that cannot extend a digit group: empty or starting
with a non-digit character. -/
def JunkOk (j : List Char) : Prop :=
  match j with
  | [] => True
  | c :: _ => c.isDigit = false

instance (j : List Char) : Decidable (JunkOk j) := by
  cases j <;> (unfold JunkOk; infer_instance)

lemma junkOk_nil : JunkOk [] := trivial

lemma junkOk_cons (c : Char) (r : List Char) (h : c.isDigit = false) :
    JunkOk (c :: r) := h

lemma munch_append (ds : List Char) :
    ∀ r : List Char, (∀ c ∈ ds, c.isDigit = true) → JunkOk r →
      munchDigits (ds ++ r) = (ds, r) := by
  induction ds with
  | nil =>
    intro r _ hr
    cases r with
    | nil => rfl
    | cons c r' =>
      unfold JunkOk at hr
      simp [munchDigits, hr]
  | cons d ds ih =>
    intro r hd hr
    have hdd : d.isDigit = true := hd d (by simp)
    simp only [List.cons_append, munchDigits, hdd, if_pos, List.append_eq]
    rw [ih r (fun c hc => hd c (by simp [hc])) hr]

lemma groupOpt_hit (u : Char) (ds r : List Char) (hu : u.isDigit = false)
    (hne : ds ≠ []) (hd : ∀ c ∈ ds, c.isDigit = true) :
    groupOpt u (ds ++ u :: r) = (digitsVal ds, r) := by
  have hm : munchDigits (ds ++ u :: r) = (ds, u :: r) := by
    apply munch_append ds (u :: r) hd
    unfold JunkOk
    exact hu
  simp [groupOpt, hm, hne]

lemma groupOpt_skip_head (u : Char) (s : List Char) (h : JunkOk s) :
    groupOpt u s = (0, s) := by
  cases s with
  | nil => rfl
  | cons c r =>
    unfold JunkOk at h
    simp [groupOpt, munchDigits, h]

lemma groupOpt_skip_unit (u c : Char) (ds r : List Char)
    (hd : ∀ x ∈ ds, x.isDigit = true) (hc : c.isDigit = false) (hcu : c ≠ u) :
    groupOpt u (ds ++ c :: r) = (0, ds ++ c :: r) := by
  have hm : munchDigits (ds ++ c :: r) = (ds, c :: r) := by
    apply munch_append ds (c :: r) hd
    unfold JunkOk
    exact hc
  simp [groupOpt, hm, hcu]

lemma hms_match (oh om os : Option (List Char)) (junk : List Char)
    (hh : FormOk oh) (hm : FormOk om) (hs : FormOk os) (hj : JunkOk junk) :
    (groupOpt 'H' (optPart oh 'H' ++ optPart om 'M' ++ optPart os 'S' ++ junk)).1
        = valOpt oh ∧
    (groupOpt 'M' ((groupOpt 'H'
        (optPart oh 'H' ++ optPart om 'M' ++ optPart os 'S' ++ junk)).2)).1
        = valOpt om ∧
    (groupOpt 'S' ((groupOpt 'M' ((groupOpt 'H'
        (optPart oh 'H' ++ optPart om 'M' ++ optPart os 'S' ++ junk)).2)).2)).1
        = valOpt os := by
  have hS : ∀ rest : List Char, JunkOk rest →
      groupOpt 'S' (optPart os 'S' ++ rest) = (valOpt os, rest) := by
    intro rest hrest
    rcases os with _ | ss
    · simpa [optPart, valOpt] using groupOpt_skip_head 'S' rest hrest
    · obtain ⟨hne, hdig⟩ := hs ss rfl
      simpa [optPart, valOpt] using groupOpt_hit 'S' ss rest (by decide) hne hdig
  have hMskip : ∀ rest : List Char, JunkOk rest →
      groupOpt 'M' (optPart os 'S' ++ rest) = (0, optPart os 'S' ++ rest) := by
    intro rest hrest
    rcases os with _ | ss
    · simpa [optPart] using groupOpt_skip_head 'M' rest hrest
    · obtain ⟨hne, hdig⟩ := hs ss rfl
      simpa [optPart] using
        groupOpt_skip_unit 'M' 'S' ss rest hdig (by decide) (by decide)
  have hM : ∀ rest : List Char, JunkOk rest →
      groupOpt 'M' (optPart om 'M' ++ optPart os 'S' ++ rest)
        = (valOpt om, optPart os 'S' ++ rest) := by
    intro rest hrest
    rcases om with _ | ms
    · simpa [optPart, valOpt] using hMskip rest hrest
    · obtain ⟨hne, hdig⟩ := hm ms rfl
      simpa [optPart, valOpt, List.append_assoc] using
        groupOpt_hit 'M' ms (optPart os 'S' ++ rest) (by decide) hne hdig
  have hHskip :
      groupOpt 'H' (optPart om 'M' ++ optPart os 'S' ++ junk)
        = (0, optPart om 'M' ++ optPart os 'S' ++ junk) := by
    rcases om with _ | ms
    · rcases os with _ | ss
      · simpa [optPart] using groupOpt_skip_head 'H' junk hj
      · obtain ⟨hne, hdig⟩ := hs ss rfl
        simpa [optPart] using
          groupOpt_skip_unit 'H' 'S' ss junk hdig (by decide) (by decide)
    · obtain ⟨hne, hdig⟩ := hm ms rfl
      simpa [optPart, List.append_assoc] using
        groupOpt_skip_unit 'H' 'M' ms (optPart os 'S' ++ junk) hdig
          (by decide) (by decide)
  have hH : groupOpt 'H' (optPart oh 'H' ++ optPart om 'M' ++ optPart os 'S' ++ junk)
      = (valOpt oh, optPart om 'M' ++ optPart os 'S' ++ junk) := by
    rcases oh with _ | hsL
    · simpa [optPart, valOpt] using hHskip
    · obtain ⟨hne, hdig⟩ := hh hsL rfl
      simpa [optPart, valOpt, List.append_assoc] using
        groupOpt_hit 'H' hsL (optPart om 'M' ++ optPart os 'S' ++ junk)
          (by decide) hne hdig
  refine ⟨by rw [hH], ?_, ?_⟩
  · rw [hH]
    rw [hM junk hj]
  · rw [hH]
    rw [hM junk hj]
    rw [hS junk hj]

lemma durationMatch_form (od oh om os : Option (List Char)) (junk : List Char)
    (hd : FormOk od) (hh : FormOk oh) (hm : FormOk om) (hs : FormOk os)
    (hj : JunkOk junk) :
    durationMatch (formChars od oh om os ++ junk)
      = some (valOpt od, valOpt oh, valOpt om, valOpt os) := by
  have hbody := hms_match oh om os junk hh hm hs hj
  set b : List Char := optPart oh 'H' ++ optPart om 'M' ++ optPart os 'S' ++ junk
    with hb
  have hform : formChars od oh om os ++ junk = 'P' :: (optPart od 'D' ++ 'T' :: b) := by
    simp [formChars, hb, List.append_assoc]
  rw [hform]
  have hD : groupOpt 'D' (optPart od 'D' ++ 'T' :: b) = (valOpt od, 'T' :: b) := by
    rcases od with _ | dsL
    · simpa [optPart, valOpt] using
        groupOpt_skip_head 'D' ('T' :: b) (junkOk_cons _ _ (by decide))
    · obtain ⟨hne, hdig⟩ := hd dsL rfl
      simpa [optPart, valOpt, List.append_assoc] using
        groupOpt_hit 'D' dsL ('T' :: b) (by decide) hne hdig
  simp only [durationMatch, hD]
  obtain ⟨h1, h2, h3⟩ := hbody
  rw [h1, h2, h3]

/-- **C2.** For every encoded duration "P[n]DT[n]H[n]M[n]S" with any subset of
the day/hour/minute/second fields present, `parse_duration` returns exactly
`days*86400 + hours*3600 + minutes*60 + seconds`, each absent field counting
as 0; every non-string input and every string the duration pattern does not
match yields 0 (the embedding is a total function, so no exception is ever
raised).  In particular "PT1H2M3S" ↦ 3723, "P1DT1H" ↦ 90000, "" ↦ 0 and
`None` ↦ 0. -/
theorem claim_C2_parse_duration_spec :
    (∀ od oh om os : Option (List Char),
        FormOk od → FormOk oh → FormOk om → FormOk os →
        parse_duration (.pyStr (String.mk (formChars od oh om os)))
          = valOpt od * 86400 + valOpt oh * 3600 + valOpt om * 60 + valOpt os)
    ∧ (∀ o : PyObj, (∀ s, o ≠ .pyStr s) → parse_duration o = 0)
    ∧ (∀ s : String, durationMatch s.data = none → parse_duration (.pyStr s) = 0)
    ∧ parse_duration (.pyStr "PT1H2M3S") = 3723
    ∧ parse_duration (.pyStr "P1DT1H") = 90000
    ∧ parse_duration (.pyStr "") = 0
    ∧ parse_duration (.pyNone) = 0 := by
  refine ⟨?_, ?_, ?_, by decide, by decide, by decide, by decide⟩
  · intro od oh om os hd hh hm hs
    have h := durationMatch_form od oh om os [] hd hh hm hs junkOk_nil
    rw [List.append_nil] at h
    show (match durationMatch (String.mk (formChars od oh om os)).data with
      | none => 0
      | some (d, h, m, sec) => d * 24 * 3600 + h * 3600 + m * 60 + sec)
      = valOpt od * 86400 + valOpt oh * 3600 + valOpt om * 60 + valOpt os
    have hdata : (String.mk (formChars od oh om os)).data = formChars od oh om os := rfl
    rw [hdata, h]
    ring
  · intro o ho
    cases o with
    | pyStr s => exact absurd rfl (ho s)
    | pyInt n => rfl
    | pyNone => rfl
  · intro s hs
    show (match durationMatch s.data with
      | none => 0
      | some (d, h, m, sec) => d * 24 * 3600 + h * 3600 + m * 60 + sec) = 0
    rw [hs]

/-- Witness for C2: the form with all four fields present, rendered as
"P1DT2H3M4S", evaluates to 1*86400 + 2*3600 + 3*60 + 4 = 93784. -/
theorem claim_C2_witness :
    parse_duration (.pyStr (String.mk (formChars
        (some ['1']) (some ['2']) (some ['3']) (some ['4'])))) = 93784 :=
  (claim_C2_parse_duration_spec.1 (some ['1']) (some ['2']) (some ['3']) (some ['4'])
    (by decide) (by decide) (by decide) (by decide)).trans (by decide)

/-- **C10.** `parse_duration` matches only a prefix of its input: appending to
a well-formed duration any junk that cannot extend its final digit group (in
particular any junk starting with a non-digit, such as "junk") leaves the
parsed value of the duration prefix unchanged instead of producing 0;
concretely, "PT1H2M3Sjunk" parses to 3723, not 0. -/
theorem claim_C10_prefix_match :
    (∀ (od oh om os : Option (List Char)) (junk : List Char),
        FormOk od → FormOk oh → FormOk om → FormOk os → JunkOk junk →
        parse_duration (.pyStr (String.mk (formChars od oh om os ++ junk)))
          = valOpt od * 86400 + valOpt oh * 3600 + valOpt om * 60 + valOpt os)
    ∧ parse_duration (.pyStr "PT1H2M3Sjunk") = 3723 := by
  refine ⟨?_, by decide⟩
  intro od oh om os junk hd hh hm hs hj
  have h := durationMatch_form od oh om os junk hd hh hm hs hj
  show (match durationMatch (String.mk (formChars od oh om os ++ junk)).data with
    | none => 0
    | some (d, h, m, sec) => d * 24 * 3600 + h * 3600 + m * 60 + sec)
    = valOpt od * 86400 + valOpt oh * 3600 + valOpt om * 60 + valOpt os
  have hdata : (String.mk (formChars od oh om os ++ junk)).data
      = formChars od oh om os ++ junk := rfl
  rw [hdata, h]
  ring

/-- Witness for C10: "PT1H" followed by the junk "xyz" still parses to 3600. -/
theorem claim_C10_witness :
    parse_duration (.pyStr (String.mk (formChars
        none (some ['1']) none none ++ ['x', 'y', 'z']))) = 3600 :=
  (claim_C10_prefix_match.1 none (some ['1']) none none ['x', 'y', 'z']
    (by decide) (by decide) (by decide) (by decide) (by decide)).trans (by decide)

/-! ## Record transformers (`src/data_processor.py`) -/

/-- A calendar date, the result of `.dt.date` on a parsed timestamp column. -/
structure DateV where
  year : Nat
  month : Nat
  day : Nat
  deriving DecidableEq, Repr

/-- Observable behavior of the external `pandas.to_datetime` at this call
site, on the ISO-8601 timestamps the external API supplies (spec section 4.1:
ISO-8601 timestamps are normalized to calendar dates, time-of-day discarded):
a string of shape "YYYY-MM-DD", optionally followed by a time-of-day part
introduced by 'T' or ' ', parses to its calendar date; any other string is
rejected (pandas raises). -/
def parseTimestamp (s : String) : Option DateV :=
  match s.data with
  | y1 :: y2 :: y3 :: y4 :: '-' :: m1 :: m2 :: '-' :: d1 :: d2 :: rest =>
    if (y1.isDigit && y2.isDigit && y3.isDigit && y4.isDigit
        && m1.isDigit && m2.isDigit && d1.isDigit && d2.isDigit)
        && (rest.isEmpty || rest.head? = some 'T' || rest.head? = some ' ') then
      some ⟨digitsVal [y1, y2, y3, y4], digitsVal [m1, m2], digitsVal [d1, d2]⟩
    else none
  | _ => none

/-- One cell of a `published_date` column passed through `pd.to_datetime`:
a missing value (the key was absent in that dict, so the cell is `NaN`)
becomes `NaT` (`none`) without error; a parseable timestamp string becomes
its date; anything else makes `to_datetime` raise, embedded as `.error`. -/
def toDatetimeOpt : Option PyObj → Except String (Option DateV)
  | none => .ok none
  | some (.pyStr s) =>
    match parseTimestamp s with
    | some d => .ok (some d)
    | none => .error "to_datetime: unparseable timestamp"
  | some _ => .error "to_datetime: unsupported value"

/-- A raw channel-info dict as built by
`YouTubeAPIHandler.get_channel_details`, which is also exactly a row of the
`channels` table (`process_channel_data` passes it through unchanged). -/
structure ChannelRow where
  channel_id : String
  channel_name : String
  subscribers : Int
  total_videos : Int
  uploads_playlist_id : String
  deriving DecidableEq, Repr

/-- A raw video dict handed to `process_video_data`.  The two keys the
transformer manipulates (`published_date`, `duration`) are `Option`-valued:
`none` embeds "key absent in this dict" (a `NaN` cell in the DataFrame);
the remaining keys are passed through untouched. -/
structure RawVideo where
  video_id : String
  channel_id : String
  title : String
  published_date : Option PyObj
  views : Int
  likes : Int
  comments_count : Int
  duration : Option PyObj
  deriving DecidableEq, Repr

/-- A row of the `videos` table: `published_date` parsed to a date (`none` =
`NaT`), the encoded `duration` replaced by `duration_seconds`. -/
structure VideoRow where
  video_id : String
  channel_id : String
  title : String
  published_date : Option DateV
  views : Int
  likes : Int
  comments_count : Int
  duration_seconds : Nat
  deriving DecidableEq, Repr

/-- A raw comment dict handed to `process_comment_data`. -/
structure RawComment where
  comment_id : String
  video_id : String
  author : String
  comment_text : String
  published_date : Option PyObj
  deriving DecidableEq, Repr

/-- A row of the `comments` table. -/
structure CommentRow where
  comment_id : String
  video_id : String
  author : String
  comment_text : String
  published_date : Option DateV
  deriving DecidableEq, Repr

/-- `process_channel_data`: falsy input (`None` or `{}`, embedded as `none`)
yields an empty row set, otherwise the dict is wrapped as a single row. -/
def process_channel_data : Option ChannelRow → List ChannelRow
  | none => []
  | some c => [c]

/-- `parse_duration` applied to one cell of the `duration` column: a missing
key is a `NaN` cell, which fails the `isinstance(..., str)` test and yields
0, like every other non-string value. -/
def durationCell : Option PyObj → Nat
  | none => 0
  | some v => parse_duration v

/-- The output row for one raw video record and its parsed date cell: all
fields preserved, the date normalized, the encoded `duration` replaced by
`duration_seconds`. -/
def videoRowOf (r : RawVideo) (d : Option DateV) : VideoRow :=
  { video_id := r.video_id
    channel_id := r.channel_id
    title := r.title
    published_date := d
    views := r.views
    likes := r.likes
    comments_count := r.comments_count
    duration_seconds := durationCell r.duration }

/-- `process_video_data`: an empty list yields an empty row set.  Otherwise
pandas semantics apply: if no record carries the `published_date` key the
column is missing and `df['published_date']` raises `KeyError`; then
`pd.to_datetime` raises on any unparseable date cell; then a missing
`duration` column makes `df['duration']` raise `KeyError`; otherwise each
record becomes a row with its date normalized and its encoded duration
replaced by `duration_seconds` (the `duration` column is dropped). -/
def process_video_data (l : List RawVideo) : Except String (List VideoRow) :=
  if l.isEmpty then .ok []
  else if l.all (fun r => r.published_date.isNone) then
    .error "KeyError: published_date"
  else do
    let dates ← l.mapM (fun r => toDatetimeOpt r.published_date)
    if l.all (fun r => r.duration.isNone) then
      .error "KeyError: duration"
    else
      .ok ((l.zip dates).map (fun p => videoRowOf p.1 p.2))

/-- A `published_date` cell that `pd.to_datetime` accepts: absent (`NaN`) or
a parseable timestamp string. -/
def DateCellOk : Option PyObj → Prop
  | none => True
  | some (.pyStr s) => (parseTimestamp s).isSome = true
  | some _ => False

instance (o : Option PyObj) : Decidable (DateCellOk o) := by
  rcases o with _ | v
  · unfold DateCellOk; infer_instance
  · rcases v with s | n | _ <;> (unfold DateCellOk; infer_instance)

/-- The output row for one raw comment record and its parsed date cell. -/
def commentRowOf (r : RawComment) (d : Option DateV) : CommentRow :=
  { comment_id := r.comment_id
    video_id := r.video_id
    author := r.author
    comment_text := r.comment_text
    published_date := d }

/-- `process_comment_data`: empty list yields an empty row set; a nonempty
list without any `published_date` key raises `KeyError`; `pd.to_datetime`
raises on unparseable cells; otherwise each record becomes a row with its
date normalized. -/
def process_comment_data (l : List RawComment) : Except String (List CommentRow) :=
  if l.isEmpty then .ok []
  else if l.all (fun r => r.published_date.isNone) then
    .error "KeyError: published_date"
  else do
    let dates ← l.mapM (fun r => toDatetimeOpt r.published_date)
    .ok ((l.zip dates).map (fun p => commentRowOf p.1 p.2))

lemma dateCellOk_ok {o : Option PyObj} (h : DateCellOk o) :
    ∃ d, toDatetimeOpt o = .ok d := by
  rcases o with _ | v
  · exact ⟨none, rfl⟩
  · rcases v with s | n | _
    · unfold DateCellOk at h
      obtain ⟨d, hd⟩ := Option.isSome_iff_exists.mp h
      exact ⟨some d, by simp [toDatetimeOpt, hd]⟩
    · exact absurd h (by unfold DateCellOk; simp)
    · exact absurd h (by unfold DateCellOk; simp)

lemma mapM_toDatetime_ok {α : Type} (f : α → Option PyObj) :
    ∀ l : List α, (∀ a ∈ l, DateCellOk (f a)) →
      ∃ ds, (l.mapM (fun a => toDatetimeOpt (f a))) = .ok ds ∧ ds.length = l.length := by
  intro l
  induction l with
  | nil => intro _; exact ⟨[], rfl, rfl⟩
  | cons a l ih =>
    intro h
    obtain ⟨d, hd⟩ := dateCellOk_ok (h a (by simp))
    obtain ⟨ds, hds, hlen⟩ := ih (fun x hx => h x (by simp [hx]))
    refine ⟨d :: ds, ?_, by simp [hlen]⟩
    rw [List.mapM_cons, hd, hds]
    rfl

/-- **C3, counterexample.**  The claim "the record transformers are total and
never raise for every input, including records with missing fields" is false:
a one-element list whose record carries neither a `published_date` nor a
`duration` key makes `process_video_data` raise `KeyError` (the DataFrame has
no `published_date` column), embedded here as an `.error` result. -/
theorem claim_C3_counterexample :
    process_video_data
      [{ video_id := "v1", channel_id := "c1", title := "t",
         published_date := none, views := 0, likes := 0, comments_count := 0,
         duration := none }] = .error "KeyError: published_date" := by
  rfl

/-- **C3, amended.**  `process_channel_data` is pure and total (zero rows for
absent input, one passthrough row otherwise), and the list transformers
return an empty row set for empty input and normalize unparseable durations
to 0; but they are exception-free on a nonempty list only when at least one
record carries the `published_date` key (and, for videos, at least one
carries `duration`) and every present `published_date` is a timestamp string
`pd.to_datetime` accepts — under those conditions they return one output row
per input record. -/
theorem claim_C3_amended :
    (process_channel_data none = [] ∧ ∀ c, process_channel_data (some c) = [c])
    ∧ (process_video_data [] = .ok [] ∧ process_comment_data [] = .ok [])
    ∧ (∀ l : List RawVideo, l ≠ [] →
        (∃ r ∈ l, r.published_date.isSome) →
        (∃ r ∈ l, r.duration.isSome) →
        (∀ r ∈ l, DateCellOk r.published_date) →
        ∃ rows, process_video_data l = .ok rows ∧ rows.length = l.length)
    ∧ (∀ l : List RawComment, l ≠ [] →
        (∃ r ∈ l, r.published_date.isSome) →
        (∀ r ∈ l, DateCellOk r.published_date) →
        ∃ rows, process_comment_data l = .ok rows ∧ rows.length = l.length) := by
  refine ⟨⟨rfl, fun c => rfl⟩, ⟨rfl, rfl⟩, ?_, ?_⟩
  · intro l hne hdate hdur hcells
    have hempty : l.isEmpty = false := by
      cases l with
      | nil => exact absurd rfl hne
      | cons a l => rfl
    have hall : l.all (fun r => r.published_date.isNone) = false := by
      obtain ⟨r, hr, hsome⟩ := hdate
      obtain ⟨v, hv⟩ := Option.isSome_iff_exists.mp hsome
      exact List.all_eq_false.mpr ⟨r, hr, by simp [hv]⟩
    have halld : l.all (fun r => r.duration.isNone) = false := by
      obtain ⟨r, hr, hsome⟩ := hdur
      obtain ⟨v, hv⟩ := Option.isSome_iff_exists.mp hsome
      exact List.all_eq_false.mpr ⟨r, hr, by simp [hv]⟩
    obtain ⟨ds, hds, hlen⟩ :=
      mapM_toDatetime_ok (fun r : RawVideo => r.published_date) l hcells
    have hmain : process_video_data l
        = .ok ((l.zip ds).map (fun p => videoRowOf p.1 p.2)) := by
      simp only [process_video_data, hempty, hall, halld, Bool.false_eq_true,
        if_false, hds]
      rfl
    exact ⟨_, hmain, by simp [hlen]⟩
  · intro l hne hdate hcells
    have hempty : l.isEmpty = false := by
      cases l with
      | nil => exact absurd rfl hne
      | cons a l => rfl
    have hall : l.all (fun r => r.published_date.isNone) = false := by
      obtain ⟨r, hr, hsome⟩ := hdate
      obtain ⟨v, hv⟩ := Option.isSome_iff_exists.mp hsome
      exact List.all_eq_false.mpr ⟨r, hr, by simp [hv]⟩
    obtain ⟨ds, hds, hlen⟩ :=
      mapM_toDatetime_ok (fun r : RawComment => r.published_date) l hcells
    have hmain : process_comment_data l
        = .ok ((l.zip ds).map (fun p => commentRowOf p.1 p.2)) := by
      simp only [process_comment_data, hempty, hall, Bool.false_eq_true,
        if_false, hds]
      rfl
    exact ⟨_, hmain, by simp [hlen]⟩

/-! ## API client batching (`YouTubeAPIHandler.get_video_details`) -/

/-- The batch partition of `for i in range(0, len(video_ids), 50)` with
`batch_ids = video_ids[i:i+50]`: consecutive chunks of 50, the last one
shorter.  Structural recursion on a fuel argument initialized with the list
length (always sufficient), so the definition evaluates by reduction. -/
def chunk50Go {α : Type} : Nat → List α → List (List α)
  | _, [] => []
  | 0, _ :: _ => []
  | fuel + 1, a :: rest => ((a :: rest).take 50) :: chunk50Go fuel ((a :: rest).drop 50)

def chunk50 {α : Type} (l : List α) : List (List α) :=
  chunk50Go l.length l

/-- `get_video_details`: one upstream call per batch of at most 50 IDs; a
call that raises (`HttpError` or any other exception, embedded as `none`)
is skipped with `continue` and the remaining batches are still processed;
the records of the successful calls are accumulated in order.  `fetch` is
the upstream `videos().list(...).execute()` response for a given batch. -/
def get_video_details {ι ρ : Type} (fetch : List ι → Option (List ρ))
    (video_ids : List ι) : List ρ :=
  (chunk50 video_ids).foldl
    (fun acc batch =>
      match fetch batch with
      | some items => acc ++ items
      | none => acc) []

lemma chunk50Go_join {α : Type} :
    ∀ (fuel : Nat) (l : List α), l.length ≤ fuel →
      (chunk50Go fuel l).flatten = l := by
  intro fuel
  induction fuel with
  | zero =>
    intro l hl
    cases l with
    | nil => rfl
    | cons a rest => simp at hl
  | succ n ih =>
    intro l hl
    cases l with
    | nil => rfl
    | cons a rest =>
      have hdrop : ((a :: rest).drop 50).length ≤ n := by
        simp only [List.length_drop, List.length_cons]
        simp only [List.length_cons] at hl
        omega
      simp only [chunk50Go, List.flatten_cons, ih _ hdrop, List.take_append_drop]

lemma chunk50Go_mem {α : Type} :
    ∀ (fuel : Nat) (l : List α) (c : List α), c ∈ chunk50Go fuel l →
      c ≠ [] ∧ c.length ≤ 50 := by
  intro fuel
  induction fuel with
  | zero =>
    intro l c hc
    cases l with
    | nil => simp [chunk50Go] at hc
    | cons a rest => simp [chunk50Go] at hc
  | succ n ih =>
    intro l c hc
    cases l with
    | nil => simp [chunk50Go] at hc
    | cons a rest =>
      simp only [chunk50Go, List.mem_cons] at hc
      rcases hc with rfl | hc
      · constructor
        · simp [List.take]
        · exact List.length_take_le 50 (a :: rest)
      · exact ih _ c hc

lemma get_video_details_foldl {ι ρ : Type} (fetch : List ι → Option (List ρ)) :
    ∀ (bs : List (List ι)) (acc : List ρ),
      bs.foldl (fun acc batch =>
        match fetch batch with
        | some items => acc ++ items
        | none => acc) acc
      = acc ++ (bs.map (fun b => (fetch b).getD [])).flatten := by
  intro bs
  induction bs with
  | nil => intro acc; simp
  | cons b bs ih =>
    intro acc
    cases hf : fetch b with
    | none => simp [List.foldl_cons, hf, ih]
    | some items => simp [List.foldl_cons, hf, ih, List.append_assoc]

/-- The concrete failure oracle of the spec's batching example: the upstream
echoes each requested batch back as its record list, except that the second
batch (the one starting at ID 50) fails. -/
def fetchFailSecond (batch : List Nat) : Option (List Nat) :=
  if batch.head? = some 50 then none else some batch

/-- **C4.**  `get_video_details` partitions its input into consecutive
batches of at most 50 IDs (their concatenation is the input, in order),
issues one upstream call per batch, and returns the concatenation of the
successful calls' records, skipping failing batches; for 120 IDs it issues
exactly 3 calls of sizes 50, 50 and 20, and when the second of them fails
the 50 + 20 records of the other two are still returned. -/
theorem claim_C4_batching :
    (∀ ids : List String, (chunk50 ids).flatten = ids)
    ∧ (∀ (ids : List String) (c : List String), c ∈ chunk50 ids →
        c ≠ [] ∧ c.length ≤ 50)
    ∧ (∀ (fetch : List String → Option (List VideoRow)) (ids : List String),
        get_video_details fetch ids
          = ((chunk50 ids).map (fun b => (fetch b).getD [])).flatten)
    ∧ (chunk50 (List.range 120)).map List.length = [50, 50, 20]
    ∧ get_video_details fetchFailSecond (List.range 120)
        = List.range 50 ++ List.range' 100 20
    ∧ (get_video_details fetchFailSecond (List.range 120)).length = 70 := by
  refine ⟨?_, ?_, ?_, by decide, by decide, by decide⟩
  · intro ids
    exact chunk50Go_join ids.length ids (Nat.le_refl _)
  · intro ids c hc
    exact chunk50Go_mem ids.length ids c hc
  · intro fetch ids
    simpa using get_video_details_foldl fetch (chunk50 ids) []

/-- Witness for C4: the membership conjunct applied at a concrete input —
the single batch of `chunk50 ["id7"]` is nonempty and within the size
limit. -/
theorem claim_C4_witness :
    ["id7"] ∈ chunk50 ["id7"] ∧ ["id7"] ≠ [] ∧ (["id7"] : List String).length ≤ 50 :=
  ⟨by decide, claim_C4_batching.2.1 ["id7"] ["id7"] (by decide)⟩

/-! ## Comment pagination (`YouTubeAPIHandler.get_comments_of_video`) -/

/-- An exception raised by one `commentThreads().list(...).execute()` call:
an `HttpError` carrying its HTTP status and whether `str(e)` contains
"commentsDisabled", or any other exception. -/
inductive ApiErr : Type where
  | http (status : Nat) (hasCommentsDisabledMsg : Bool)
  | other
  deriving DecidableEq, Repr

/-- The diagnostic the handler records on a failure path: `st.warning` for
the expected comments-disabled condition, `st.error` otherwise. -/
inductive CDiag : Type where
  | warn
  | err
  deriving DecidableEq, Repr

/-- The `except` clauses of `get_comments_of_video`: an `HttpError` with
status 403 whose text mentions `commentsDisabled` is reported as a warning;
every other exception is reported as an error. -/
def diagFor : ApiErr → CDiag
  | .http s m => if s = 403 ∧ m = true then .warn else .err
  | .other => .err

/-- The `while collected < max_results` pagination loop.  `pages` is the
upstream's response stream along the continuation-token chain (position k =
response to the k-th request; the list ends where a response carries no
`nextPageToken`); a response is either an exception or a page of comment
records.  With budget left, an exceptional response discards everything
collected and returns `([], diagnostic)` (the `except` clauses return `[]`);
a page is appended item by item, breaking mid-page as soon as the budget is
reached; otherwise the loop follows the token to the next page. -/
def commentLoop {γ : Type} :
    List (Except ApiErr (List γ)) → Nat → List γ → List γ × Option CDiag
  | _, 0, acc => (acc, none)
  | [], _, acc => (acc, none)
  | .error e :: _, _ + 1, _ => ([], some (diagFor e))
  | .ok p :: rest, b + 1, acc =>
    if b + 1 ≤ p.length then (acc ++ p.take (b + 1), none)
    else commentLoop rest (b + 1 - p.length) (acc ++ p)

/-- `get_comments_of_video`: run the pagination loop with the `max_results`
budget (default 100 at the call sites) and an empty accumulator; returns the
collected records and the recorded diagnostic, if any. -/
def get_comments_of_video {γ : Type} (pages : List (Except ApiErr (List γ)))
    (max_results : Nat) : List γ × Option CDiag :=
  commentLoop pages max_results []

lemma commentLoop_length {γ : Type} :
    ∀ (pages : List (Except ApiErr (List γ))) (b : Nat) (acc : List γ),
      (commentLoop pages b acc).1.length ≤ acc.length + b := by
  intro pages
  induction pages with
  | nil =>
    intro b acc
    cases b with
    | zero => simp [commentLoop]
    | succ n => simp [commentLoop]
  | cons page rest ih =>
    intro b acc
    cases b with
    | zero => simp [commentLoop]
    | succ n =>
      cases page with
      | error e => simp [commentLoop]
      | ok p =>
        by_cases hb : n + 1 ≤ p.length
        · simp only [commentLoop, if_pos hb, List.length_append]
          have := List.length_take_le (n + 1) p
          omega
        · simp only [commentLoop, if_neg hb]
          have := ih (n + 1 - p.length) (acc ++ p)
          simp only [List.length_append] at this
          omega

lemma commentLoop_ok_pages {γ : Type} :
    ∀ (pgs : List (List γ)) (b : Nat) (acc : List γ),
      commentLoop (pgs.map .ok) b acc = (acc ++ pgs.flatten.take b, none) := by
  intro pgs
  induction pgs with
  | nil =>
    intro b acc
    cases b with
    | zero => simp [commentLoop]
    | succ n => simp [commentLoop]
  | cons p rest ih =>
    intro b acc
    cases b with
    | zero => simp [commentLoop]
    | succ n =>
      by_cases hb : n + 1 ≤ p.length
      · simp only [List.map_cons, commentLoop, if_pos hb, List.flatten_cons]
        rw [List.take_append_of_le_length hb]
      · simp only [List.map_cons, commentLoop, if_neg hb, List.flatten_cons, ih]
        rw [show n + 1 = p.length + (n + 1 - p.length) from by omega,
          List.take_append, List.append_assoc]
        simp

/-- **C5.**  `get_comments_of_video` never returns more than `max_results`
records, for every upstream page stream; on an error-free stream the result
is exactly the first `max_results` of the concatenated pages (so
accumulation stops at the cap even mid-page, no matter how many further
pages and continuation tokens the upstream supplies); in particular with a
cap of 10 and an upstream holding 3 pages of 7 comments each, exactly 10
records are returned. -/
theorem claim_C5_comment_cap :
    (∀ (pages : List (Except ApiErr (List Nat))) (max_results : Nat),
        (get_comments_of_video pages max_results).1.length ≤ max_results)
    ∧ (∀ (pgs : List (List Nat)) (max_results : Nat),
        (get_comments_of_video (pgs.map .ok) max_results).1
          = pgs.flatten.take max_results)
    ∧ (get_comments_of_video
        ((([List.range 7, List.range 7, List.range 7] : List (List Nat))).map .ok)
        10).1.length = 10 := by
  refine ⟨?_, ?_, by decide⟩
  · intro pages max_results
    simpa using commentLoop_length pages max_results []
  · intro pgs max_results
    simp [get_comments_of_video, commentLoop_ok_pages]

/-- **C8.**  `get_comments_of_video` never raises: whenever the pagination
loop meets an exceptional response while budget remains (all earlier
responses were pages, and their items did not exhaust `max_results`), it
returns the empty record list together with a recorded diagnostic — a
non-fatal warning exactly when the exception is the comments-disabled
condition (HTTP 403 with `commentsDisabled` in the message), an error
diagnostic for every other exception; and an error-free run records no
diagnostic at all. -/
theorem claim_C8_error_handling :
    (∀ (okPages : List (List Nat)) (e : ApiErr)
        (rest : List (Except ApiErr (List Nat))) (max_results : Nat),
        okPages.flatten.length < max_results →
        get_comments_of_video (okPages.map .ok ++ .error e :: rest) max_results
          = ([], some (diagFor e)))
    ∧ (∀ s m, diagFor (.http s m) = if s = 403 ∧ m = true then .warn else .err)
    ∧ diagFor .other = .err
    ∧ (∀ (pgs : List (List Nat)) (max_results : Nat),
        (get_comments_of_video (pgs.map .ok) max_results).2 = none) := by
  refine ⟨?_, fun s m => rfl, rfl, ?_⟩
  · have main : ∀ (okPages : List (List Nat)) (e : ApiErr)
        (rest : List (Except ApiErr (List Nat))) (b : Nat) (acc : List Nat),
        okPages.flatten.length < b →
        commentLoop (okPages.map .ok ++ .error e :: rest) b acc
          = ([], some (diagFor e)) := by
      intro okPages
      induction okPages with
      | nil =>
        intro e rest b acc hb
        cases b with
        | zero => simp at hb
        | succ n => simp [commentLoop]
      | cons p ps ih =>
        intro e rest b acc hb
        simp only [List.flatten_cons, List.length_append] at hb
        cases b with
        | zero => omega
        | succ n =>
          have hnb : ¬ n + 1 ≤ p.length := by omega
          simp only [List.map_cons, List.cons_append, commentLoop, if_neg hnb]
          exact ih e rest (n + 1 - p.length) (acc ++ p) (by omega)
    intro okPages e rest max_results h
    exact main okPages e rest max_results [] h
  · intro pgs max_results
    simp [get_comments_of_video, commentLoop_ok_pages]

/-- Witness for C8: one successful page of one comment followed by the
comments-disabled exception, with budget 5 remaining — the result is empty
with a warning diagnostic (and the classification conjuncts at 403). -/
theorem claim_C8_witness :
    get_comments_of_video
        (([[0]] : List (List Nat)).map .ok ++ .error (.http 403 true) :: []) 5
      = ([], some CDiag.warn)
    ∧ diagFor (.http 403 true) = .warn :=
  ⟨(claim_C8_error_handling.1 [[0]] (.http 403 true) [] 5 (by decide)).trans
      (by decide),
    claim_C8_error_handling.2.1 403 true⟩

/-! ## The orchestrator's staging collection (`app.py`) -/

/-- One value of the session-state dict
`st.session_state['collected_channels_data']`: the per-channel staging entry
`{'channel_info': ..., 'videos': [...], 'comments': [...]}`.  A falsy
`channel_info` ({} or None) is embedded as `none`. -/
structure Staged where
  channel_info : Option ChannelRow
  videos : List RawVideo
  comments : List RawComment
  deriving DecidableEq, Repr

/-! ## Warehouse gateway (`src/database_manager.py`)

The three tables are embedded as row lists in insertion order; the ORM
session of one `insert_*` call is embedded as the pure function applied when
the call commits.  `session.query(...).filter_by(pk).first()` finds the
first row with the given primary key. -/

/-- One row of `DatabaseManager.insert_channel_data`'s loop: look up the
channel by `channel_id`; if present, overwrite `channel_name`,
`subscribers`, `total_videos` and `uploads_playlist_id` on the existing row
in place; otherwise add a new row. -/
def upsertChannelRow : List ChannelRow → ChannelRow → List ChannelRow
  | [], r => [r]
  | c :: cs, r =>
    if c.channel_id = r.channel_id then
      { c with
        channel_name := r.channel_name
        subscribers := r.subscribers
        total_videos := r.total_videos
        uploads_playlist_id := r.uploads_playlist_id } :: cs
    else c :: upsertChannelRow cs r

/-- `insert_channel_data` on a committing session: the row loop applied in
order (the empty-DataFrame early return coincides with folding nothing). -/
def insert_channel_data (tbl : List ChannelRow) (rows : List ChannelRow) :
    List ChannelRow :=
  rows.foldl upsertChannelRow tbl

/-- One row of `insert_video_data`'s loop: update-in-place of `title`,
`views`, `likes`, `comments_count`, `duration_seconds` and `published_date`
(note: not `channel_id`), or insert. -/
def upsertVideoRow : List VideoRow → VideoRow → List VideoRow
  | [], r => [r]
  | v :: vs, r =>
    if v.video_id = r.video_id then
      { v with
        title := r.title
        views := r.views
        likes := r.likes
        comments_count := r.comments_count
        duration_seconds := r.duration_seconds
        published_date := r.published_date } :: vs
    else v :: upsertVideoRow vs r

def insert_video_data (tbl : List VideoRow) (rows : List VideoRow) :
    List VideoRow :=
  rows.foldl upsertVideoRow tbl

/-- One row of `insert_comment_data`'s loop: insert only if no row with the
same `comment_id` exists; otherwise leave the table untouched. -/
def insertCommentRow (tbl : List CommentRow) (r : CommentRow) : List CommentRow :=
  if tbl.any (fun c => c.comment_id = r.comment_id) then tbl else tbl ++ [r]

def insert_comment_data (tbl : List CommentRow) (rows : List CommentRow) :
    List CommentRow :=
  rows.foldl insertCommentRow tbl

/-- The rows of the `channels` table carrying a given primary-key value. -/
def rowsWithChannelId (x : String) (tbl : List ChannelRow) : List ChannelRow :=
  tbl.filter (fun c => c.channel_id = x)

lemma rowsWithChannelId_nil (x : String) : rowsWithChannelId x [] = [] := rfl

lemma rowsWithChannelId_cons (x : String) (c : ChannelRow) (cs : List ChannelRow) :
    rowsWithChannelId x (c :: cs)
      = if c.channel_id = x then c :: rowsWithChannelId x cs
        else rowsWithChannelId x cs := by
  by_cases h : c.channel_id = x <;> simp [rowsWithChannelId, List.filter_cons, h]

lemma rowsWithChannelId_append (x : String) (l1 l2 : List ChannelRow) :
    rowsWithChannelId x (l1 ++ l2)
      = rowsWithChannelId x l1 ++ rowsWithChannelId x l2 := by
  simp [rowsWithChannelId, List.filter_append]

lemma rowsWithChannelId_eq_nil_of_not_mem (x : String) (tbl : List ChannelRow)
    (h : x ∉ tbl.map ChannelRow.channel_id) : rowsWithChannelId x tbl = [] := by
  induction tbl with
  | nil => rfl
  | cons c cs ih =>
    simp only [List.map_cons, List.mem_cons] at h
    push_neg at h
    rw [rowsWithChannelId_cons, if_neg (fun hc => h.1 hc.symm)]
    exact ih h.2

lemma upsertChannelRow_fields_eq (c r : ChannelRow) (h : c.channel_id = r.channel_id) :
    ({ c with
        channel_name := r.channel_name
        subscribers := r.subscribers
        total_videos := r.total_videos
        uploads_playlist_id := r.uploads_playlist_id } : ChannelRow) = r := by
  cases c; cases r
  simp_all

lemma upsertChannelRow_map_id_of_mem (tbl : List ChannelRow) (r : ChannelRow)
    (h : r.channel_id ∈ tbl.map ChannelRow.channel_id) :
    (upsertChannelRow tbl r).map ChannelRow.channel_id
      = tbl.map ChannelRow.channel_id := by
  induction tbl with
  | nil => simp at h
  | cons c cs ih =>
    by_cases hc : c.channel_id = r.channel_id
    · simp [upsertChannelRow, hc]
    · simp only [List.map_cons, List.mem_cons] at h
      rcases h with h | h
      · exact absurd h.symm hc
      · simp [upsertChannelRow, hc, ih h]

lemma upsertChannelRow_of_not_mem (tbl : List ChannelRow) (r : ChannelRow)
    (h : r.channel_id ∉ tbl.map ChannelRow.channel_id) :
    upsertChannelRow tbl r = tbl ++ [r] := by
  induction tbl with
  | nil => rfl
  | cons c cs ih =>
    simp only [List.map_cons, List.mem_cons] at h
    push_neg at h
    have hc : ¬ c.channel_id = r.channel_id := fun hc => h.1 hc.symm
    rw [upsertChannelRow]
    simp only [if_neg hc]
    rw [ih h.2, List.cons_append]

lemma upsertChannelRow_rowsWith_ne (tbl : List ChannelRow) (r : ChannelRow)
    (x : String) (hx : x ≠ r.channel_id) :
    rowsWithChannelId x (upsertChannelRow tbl r) = rowsWithChannelId x tbl := by
  have hrx : ¬ r.channel_id = x := fun h => hx h.symm
  induction tbl with
  | nil =>
    simp [upsertChannelRow, rowsWithChannelId_cons, rowsWithChannelId_nil, hrx]
  | cons c cs ih =>
    by_cases hc : c.channel_id = r.channel_id
    · have hcx : ¬ c.channel_id = x := fun h => hx (h.symm.trans hc)
      rw [upsertChannelRow]
      simp only [if_pos hc]
      simp [rowsWithChannelId_cons, hcx]
    · rw [upsertChannelRow]
      simp only [if_neg hc]
      rw [rowsWithChannelId_cons, rowsWithChannelId_cons, ih]

lemma upsertChannelRow_rowsWith_self (tbl : List ChannelRow) (r : ChannelRow)
    (hnd : (tbl.map ChannelRow.channel_id).Nodup) :
    rowsWithChannelId r.channel_id (upsertChannelRow tbl r) = [r] := by
  induction tbl with
  | nil =>
    simp [upsertChannelRow, rowsWithChannelId_cons, rowsWithChannelId_nil]
  | cons c cs ih =>
    simp only [List.map_cons, List.nodup_cons] at hnd
    by_cases hc : c.channel_id = r.channel_id
    · rw [upsertChannelRow]
      simp only [if_pos hc]
      rw [upsertChannelRow_fields_eq c r hc]
      rw [rowsWithChannelId_cons, if_pos rfl]
      rw [rowsWithChannelId_eq_nil_of_not_mem _ _ (hc ▸ hnd.1)]
    · rw [upsertChannelRow]
      simp only [if_neg hc]
      rw [rowsWithChannelId_cons, if_neg hc]
      exact ih hnd.2

lemma upsertChannelRow_nodup (tbl : List ChannelRow) (r : ChannelRow)
    (hnd : (tbl.map ChannelRow.channel_id).Nodup) :
    ((upsertChannelRow tbl r).map ChannelRow.channel_id).Nodup := by
  by_cases h : r.channel_id ∈ tbl.map ChannelRow.channel_id
  · rw [upsertChannelRow_map_id_of_mem tbl r h]
    exact hnd
  · rw [upsertChannelRow_of_not_mem tbl r h]
    rw [List.map_append, List.nodup_append]
    refine ⟨hnd, by simp, ?_⟩
    intro x hx hx2
    simp only [List.map_cons, List.map_nil, List.mem_singleton] at hx2
    exact h (hx2 ▸ hx)

lemma upsertChannelRow_eq_self (tbl : List ChannelRow) (r : ChannelRow)
    (h : rowsWithChannelId r.channel_id tbl = [r]) :
    upsertChannelRow tbl r = tbl := by
  induction tbl with
  | nil => simp [rowsWithChannelId_nil] at h
  | cons c cs ih =>
    rw [rowsWithChannelId_cons] at h
    by_cases hc : c.channel_id = r.channel_id
    · rw [if_pos hc] at h
      have hcr : c = r := (List.cons_eq_cons.mp h).1
      have hnil : rowsWithChannelId r.channel_id cs = [] :=
        (List.cons_eq_cons.mp h).2
      rw [upsertChannelRow]
      simp only [if_pos hc]
      rw [upsertChannelRow_fields_eq c r hc, hcr]
    · rw [if_neg hc] at h
      rw [upsertChannelRow]
      simp only [if_neg hc]
      rw [ih h]

lemma insert_channel_data_nodup (rows : List ChannelRow) :
    ∀ tbl : List ChannelRow, (tbl.map ChannelRow.channel_id).Nodup →
      ((insert_channel_data tbl rows).map ChannelRow.channel_id).Nodup := by
  induction rows with
  | nil => intro tbl h; exact h
  | cons a rows ih =>
    intro tbl h
    exact ih (upsertChannelRow tbl a) (upsertChannelRow_nodup tbl a h)

lemma insert_channel_data_rowsWith_untouched (rows : List ChannelRow) :
    ∀ (tbl : List ChannelRow) (x : String), (∀ s ∈ rows, s.channel_id ≠ x) →
      rowsWithChannelId x (insert_channel_data tbl rows)
        = rowsWithChannelId x tbl := by
  induction rows with
  | nil => intro tbl x _; rfl
  | cons a rows ih =>
    intro tbl x hx
    have ha : x ≠ a.channel_id := fun h => hx a (by simp) h.symm
    calc rowsWithChannelId x (insert_channel_data (upsertChannelRow tbl a) rows)
        = rowsWithChannelId x (upsertChannelRow tbl a) :=
          ih _ x (fun s hs => hx s (by simp [hs]))
      _ = rowsWithChannelId x tbl := upsertChannelRow_rowsWith_ne tbl a x ha

lemma insert_channel_data_rowsWith_last (rows : List ChannelRow) :
    ∀ (tbl : List ChannelRow) (r : ChannelRow),
      (tbl.map ChannelRow.channel_id).Nodup →
      (rows.map ChannelRow.channel_id).Nodup →
      r ∈ rows →
      rowsWithChannelId r.channel_id (insert_channel_data tbl rows) = [r] := by
  induction rows with
  | nil => intro tbl r _ _ hr; simp at hr
  | cons a rows ih =>
    intro tbl r hnd hrows hr
    simp only [List.map_cons, List.nodup_cons] at hrows
    rcases List.mem_cons.mp hr with rfl | hr
    · have : ∀ s ∈ rows, s.channel_id ≠ r.channel_id := by
        intro s hs h
        exact hrows.1 (h ▸ List.mem_map_of_mem ChannelRow.channel_id hs)
      calc rowsWithChannelId r.channel_id
            (insert_channel_data (upsertChannelRow tbl r) rows)
          = rowsWithChannelId r.channel_id (upsertChannelRow tbl r) :=
            insert_channel_data_rowsWith_untouched rows _ _ this
        _ = [r] := upsertChannelRow_rowsWith_self tbl r hnd
    · exact ih (upsertChannelRow tbl a) r (upsertChannelRow_nodup tbl a hnd)
        hrows.2 hr

lemma foldl_upsert_id (rows : List ChannelRow) (tbl : List ChannelRow)
    (h : ∀ r ∈ rows, upsertChannelRow tbl r = tbl) :
    insert_channel_data tbl rows = tbl := by
  induction rows with
  | nil => rfl
  | cons a rows ih =>
    show insert_channel_data (upsertChannelRow tbl a) rows = tbl
    rw [h a (by simp)]
    exact ih (fun r hr => h r (by simp [hr]))

/-- **C6.**  `insert_channel_data` is an idempotent upsert by primary key:
the single-row step updates the mutable fields of the existing row in place
when the key is present and appends a fresh row otherwise; under unique
primary keys, after one batched call every input row is the unique row
stored under its channel ID (last write wins), the table's keys stay
duplicate-free, and repeating the identical call changes nothing. -/
theorem claim_C6_upsert_idempotent :
    (∀ (tbl : List ChannelRow) (r : ChannelRow),
        r.channel_id ∉ tbl.map ChannelRow.channel_id →
        upsertChannelRow tbl r = tbl ++ [r])
    ∧ (∀ (tbl : List ChannelRow) (r : ChannelRow),
        (tbl.map ChannelRow.channel_id).Nodup →
        rowsWithChannelId r.channel_id (upsertChannelRow tbl r) = [r]
          ∧ (upsertChannelRow tbl r).map ChannelRow.channel_id
              = tbl.map ChannelRow.channel_id
            ∨ upsertChannelRow tbl r = tbl ++ [r])
    ∧ (∀ (tbl rows : List ChannelRow),
        (tbl.map ChannelRow.channel_id).Nodup →
        (rows.map ChannelRow.channel_id).Nodup →
        (∀ r ∈ rows,
            rowsWithChannelId r.channel_id (insert_channel_data tbl rows) = [r])
        ∧ ((insert_channel_data tbl rows).map ChannelRow.channel_id).Nodup
        ∧ insert_channel_data (insert_channel_data tbl rows) rows
            = insert_channel_data tbl rows) := by
  refine ⟨upsertChannelRow_of_not_mem, ?_, ?_⟩
  · intro tbl r hnd
    by_cases h : r.channel_id ∈ tbl.map ChannelRow.channel_id
    · exact Or.inl ⟨upsertChannelRow_rowsWith_self tbl r hnd,
        upsertChannelRow_map_id_of_mem tbl r h⟩
    · exact Or.inr (upsertChannelRow_of_not_mem tbl r h)
  · intro tbl rows hnd hrows
    have hlast : ∀ r ∈ rows,
        rowsWithChannelId r.channel_id (insert_channel_data tbl rows) = [r] :=
      fun r hr => insert_channel_data_rowsWith_last rows tbl r hnd hrows hr
    refine ⟨hlast, insert_channel_data_nodup rows tbl hnd, ?_⟩
    exact foldl_upsert_id rows _ (fun r hr =>
      upsertChannelRow_eq_self _ r (hlast r hr))

/-- Witness for C6: a two-row table and a two-row batch sharing one key —
after the call the batch rows are the unique rows under their keys, and the
second identical call is a no-op. -/
theorem claim_C6_witness :
    (∀ r ∈ [({ channel_id := "a", channel_name := "A2", subscribers := 7,
               total_videos := 3, uploads_playlist_id := "ua" } : ChannelRow),
            { channel_id := "c", channel_name := "C", subscribers := 1,
               total_videos := 1, uploads_playlist_id := "uc" }],
        rowsWithChannelId r.channel_id
          (insert_channel_data
            [{ channel_id := "a", channel_name := "A", subscribers := 5,
               total_videos := 2, uploads_playlist_id := "ua" },
             { channel_id := "b", channel_name := "B", subscribers := 9,
               total_videos := 4, uploads_playlist_id := "ub" }]
            [{ channel_id := "a", channel_name := "A2", subscribers := 7,
               total_videos := 3, uploads_playlist_id := "ua" },
             { channel_id := "c", channel_name := "C", subscribers := 1,
               total_videos := 1, uploads_playlist_id := "uc" }]) = [r])
    ∧ insert_channel_data
        (insert_channel_data
          [{ channel_id := "a", channel_name := "A", subscribers := 5,
             total_videos := 2, uploads_playlist_id := "ua" },
           { channel_id := "b", channel_name := "B", subscribers := 9,
             total_videos := 4, uploads_playlist_id := "ub" }]
          [{ channel_id := "a", channel_name := "A2", subscribers := 7,
             total_videos := 3, uploads_playlist_id := "ua" },
           { channel_id := "c", channel_name := "C", subscribers := 1,
             total_videos := 1, uploads_playlist_id := "uc" }])
        [{ channel_id := "a", channel_name := "A2", subscribers := 7,
           total_videos := 3, uploads_playlist_id := "ua" },
         { channel_id := "c", channel_name := "C", subscribers := 1,
           total_videos := 1, uploads_playlist_id := "uc" }]
      = insert_channel_data
          [{ channel_id := "a", channel_name := "A", subscribers := 5,
             total_videos := 2, uploads_playlist_id := "ua" },
           { channel_id := "b", channel_name := "B", subscribers := 9,
             total_videos := 4, uploads_playlist_id := "ub" }]
          [{ channel_id := "a", channel_name := "A2", subscribers := 7,
             total_videos := 3, uploads_playlist_id := "ua" },
           { channel_id := "c", channel_name := "C", subscribers := 1,
             total_videos := 1, uploads_playlist_id := "uc" }] := by
  have h := claim_C6_upsert_idempotent.2.2
    [{ channel_id := "a", channel_name := "A", subscribers := 5,
       total_videos := 2, uploads_playlist_id := "ua" },
     { channel_id := "b", channel_name := "B", subscribers := 9,
       total_videos := 4, uploads_playlist_id := "ub" }]
    [{ channel_id := "a", channel_name := "A2", subscribers := 7,
       total_videos := 3, uploads_playlist_id := "ua" },
     { channel_id := "c", channel_name := "C", subscribers := 1,
       total_videos := 1, uploads_playlist_id := "uc" }]
    (by decide) (by decide)
  exact ⟨h.1, h.2.2⟩

/-- The rows of the `comments` table carrying a given primary-key value. -/
def rowsWithCommentId (x : String) (tbl : List CommentRow) : List CommentRow :=
  tbl.filter (fun c => c.comment_id = x)

lemma rowsWithCommentId_append (x : String) (l1 l2 : List CommentRow) :
    rowsWithCommentId x (l1 ++ l2)
      = rowsWithCommentId x l1 ++ rowsWithCommentId x l2 := by
  simp [rowsWithCommentId, List.filter_append]

lemma insertCommentRow_of_mem (tbl : List CommentRow) (r : CommentRow)
    (h : ∃ c ∈ tbl, c.comment_id = r.comment_id) :
    insertCommentRow tbl r = tbl := by
  have ha : tbl.any (fun c => c.comment_id = r.comment_id) = true := by
    obtain ⟨c, hc, he⟩ := h
    exact List.any_eq_true.mpr ⟨c, hc, by simp [he]⟩
  simp [insertCommentRow, ha]

lemma insertCommentRow_of_not_mem (tbl : List CommentRow) (r : CommentRow)
    (h : ∀ c ∈ tbl, c.comment_id ≠ r.comment_id) :
    insertCommentRow tbl r = tbl ++ [r] := by
  have ha : tbl.any (fun c => c.comment_id = r.comment_id) = false := by
    rw [List.any_eq_false]
    intro c hc
    simp [h c hc]
  simp [insertCommentRow, ha]

lemma insertCommentRow_cases (tbl : List CommentRow) (r : CommentRow) :
    insertCommentRow tbl r = tbl
    ∨ (insertCommentRow tbl r = tbl ++ [r]
        ∧ ∀ c ∈ tbl, c.comment_id ≠ r.comment_id) := by
  by_cases ha : tbl.any (fun c => c.comment_id = r.comment_id) = true
  · exact Or.inl (by simp [insertCommentRow, ha])
  · rw [Bool.not_eq_true, List.any_eq_false] at ha
    have hne : ∀ c ∈ tbl, c.comment_id ≠ r.comment_id := by
      intro c hc
      have := ha c hc
      simpa using this
    exact Or.inr ⟨insertCommentRow_of_not_mem tbl r hne, hne⟩

lemma insert_comment_data_append_only (rows : List CommentRow) :
    ∀ tbl : List CommentRow, ∃ s, insert_comment_data tbl rows = tbl ++ s := by
  induction rows with
  | nil => intro tbl; exact ⟨[], by simp [insert_comment_data]⟩
  | cons a rows ih =>
    intro tbl
    show ∃ s, insert_comment_data (insertCommentRow tbl a) rows = tbl ++ s
    rcases insertCommentRow_cases tbl a with h | ⟨h, _⟩
    · rw [h]; exact ih tbl
    · rw [h]
      obtain ⟨s, hs⟩ := ih (tbl ++ [a])
      exact ⟨[a] ++ s, by rw [hs, List.append_assoc]⟩

lemma insertCommentRow_rowsWith_stored (tbl : List CommentRow) (r : CommentRow)
    (x : String) (hx : x ∈ tbl.map CommentRow.comment_id) :
    rowsWithCommentId x (insertCommentRow tbl r) = rowsWithCommentId x tbl := by
  rcases insertCommentRow_cases tbl r with h | ⟨h, hne⟩
  · rw [h]
  · rw [h, rowsWithCommentId_append]
    obtain ⟨c, hc, hcx⟩ := List.mem_map.mp hx
    have hrx : ¬ r.comment_id = x := fun he => hne c hc (hcx.trans he.symm)
    have : rowsWithCommentId x [r] = [] := by
      simp [rowsWithCommentId, List.filter_cons, hrx]
    rw [this, List.append_nil]

lemma insertCommentRow_ids_mono (tbl : List CommentRow) (r : CommentRow)
    (x : String) (hx : x ∈ tbl.map CommentRow.comment_id) :
    x ∈ (insertCommentRow tbl r).map CommentRow.comment_id := by
  rcases insertCommentRow_cases tbl r with h | ⟨h, _⟩
  · rw [h]; exact hx
  · rw [h, List.map_append]
    exact List.mem_append_left _ hx

lemma insert_comment_data_rowsWith_stored (rows : List CommentRow) :
    ∀ (tbl : List CommentRow) (x : String),
      x ∈ tbl.map CommentRow.comment_id →
      rowsWithCommentId x (insert_comment_data tbl rows)
        = rowsWithCommentId x tbl := by
  induction rows with
  | nil => intro tbl x _; rfl
  | cons a rows ih =>
    intro tbl x hx
    show rowsWithCommentId x (insert_comment_data (insertCommentRow tbl a) rows)
      = rowsWithCommentId x tbl
    rw [ih _ x (insertCommentRow_ids_mono tbl a x hx)]
    exact insertCommentRow_rowsWith_stored tbl a x hx

/-- **C7.**  `insert_comment_data` is append-only: a row whose comment ID is
already stored is skipped (the table is returned untouched, even when the
incoming payload differs field-by-field from the stored row), a row with a
fresh ID is appended; a whole batched call only ever appends a suffix, and
for every already-stored row the set of rows under its comment ID —
including every stored field value — is exactly what it was before the
call. -/
theorem claim_C7_append_only :
    (∀ (tbl : List CommentRow) (r : CommentRow),
        (∃ c ∈ tbl, c.comment_id = r.comment_id) →
        insertCommentRow tbl r = tbl)
    ∧ (∀ (tbl : List CommentRow) (r : CommentRow),
        (∀ c ∈ tbl, c.comment_id ≠ r.comment_id) →
        insertCommentRow tbl r = tbl ++ [r])
    ∧ (∀ (tbl rows : List CommentRow),
        ∃ s, insert_comment_data tbl rows = tbl ++ s)
    ∧ (∀ (tbl rows : List CommentRow) (c : CommentRow), c ∈ tbl →
        rowsWithCommentId c.comment_id (insert_comment_data tbl rows)
          = rowsWithCommentId c.comment_id tbl) :=
  ⟨insertCommentRow_of_mem, insertCommentRow_of_not_mem,
    fun tbl rows => insert_comment_data_append_only rows tbl,
    fun tbl rows c hc => insert_comment_data_rowsWith_stored rows tbl
      c.comment_id (List.mem_map_of_mem CommentRow.comment_id hc)⟩

/-- Witness for C7: re-inserting the stored comment ID "k" with a different
payload is a no-op — the stored row keeps its fields and stays the unique
row under "k". -/
theorem claim_C7_witness :
    insertCommentRow
        [{ comment_id := "k", video_id := "v", author := "ann",
           comment_text := "hello", published_date := none }]
        { comment_id := "k", video_id := "v", author := "bob",
          comment_text := "changed", published_date := none }
      = [{ comment_id := "k", video_id := "v", author := "ann",
           comment_text := "hello", published_date := none }]
    ∧ rowsWithCommentId "k"
        (insert_comment_data
          [{ comment_id := "k", video_id := "v", author := "ann",
             comment_text := "hello", published_date := none }]
          [{ comment_id := "k", video_id := "v", author := "bob",
             comment_text := "changed", published_date := none }])
      = [{ comment_id := "k", video_id := "v", author := "ann",
           comment_text := "hello", published_date := none }] := by
  constructor
  · exact claim_C7_append_only.1 _ _
      ⟨{ comment_id := "k", video_id := "v", author := "ann",
         comment_text := "hello", published_date := none }, by simp, rfl⟩
  · have h := claim_C7_append_only.2.2.2
      [{ comment_id := "k", video_id := "v", author := "ann",
         comment_text := "hello", published_date := none }]
      [{ comment_id := "k", video_id := "v", author := "bob",
         comment_text := "changed", published_date := none }]
      { comment_id := "k", video_id := "v", author := "ann",
        comment_text := "hello", published_date := none }
      (by simp)
    rw [h]
    rfl

/-! ## The "Data Warehousing" migration loop (`app.py`, `Migrate All` button)

The loop walks the staging dict in order.  Per channel it (1) transforms and
inserts the channel row, (2) lazily fetches videos when none are staged and
the channel info is present, updates the staging entry, transforms and
inserts the video rows, (3) lazily fetches comments when none are staged and
videos exist, updates the staging entry, transforms and inserts the comment
rows.  `DatabaseManager` swallows every storage error (rollback + `st.error`,
no exception escapes), embedded as a per-call failure oracle that leaves the
warehouse unchanged; an exception from the transformers (`process_*` returning
`.error`) aborts the whole Streamlit script run, so later statements —
including the final clearing of the staging dict — do not execute. -/

/-- The three warehouse tables. -/
structure Warehouse where
  channels : List ChannelRow
  videos : List VideoRow
  comments : List CommentRow
  deriving DecidableEq, Repr

/-- One `db_manager.insert_*` call issued by the migration loop, tagged with
the channel being migrated. -/
inductive WriteEvent : Type where
  | chanW (c : String)
  | vidW (c : String)
  | comW (c : String)
  deriving DecidableEq, Repr

/-- The channel a write event belongs to. -/
def evCid : WriteEvent → String
  | .chanW c => c
  | .vidW c => c
  | .comW c => c

/-- State threaded through the migration run: the warehouse, the number of
insert calls issued so far (consulted by the failure oracle), and the trace
of insert calls. -/
structure MigState where
  db : Warehouse
  callIdx : Nat
  trace : List WriteEvent
  deriving DecidableEq, Repr

/-- One `insert_*` call: the event is recorded; if the storage oracle fails
this call, the session rolls back and the warehouse is unchanged (the
exception is swallowed by `DatabaseManager`), otherwise the update commits. -/
def applyInsert (oracle : Nat → Bool) (s : MigState) (ev : WriteEvent)
    (upd : Warehouse → Warehouse) : MigState :=
  { db := if oracle s.callIdx then s.db else upd s.db
    callIdx := s.callIdx + 1
    trace := s.trace ++ [ev] }

/-- `current_videos_data` for one staged channel: the staged videos, or a
lazy fetch (playlist enumeration + batched detail lookup, abstracted as
`fv`) when none are staged and the channel info is truthy. -/
def vidsOf (fv : ChannelRow → List RawVideo) (d : Staged) : List RawVideo :=
  match d.channel_info, d.videos with
  | some ci, [] => fv ci
  | _, vs => vs

/-- `current_comments_data` for one staged channel: the staged comments, or
a lazy per-video fetch (abstracted as `fc`, keyed by raw video ID) when none
are staged and `current_videos_data` is nonempty. -/
def comsOf (fv : ChannelRow → List RawVideo) (fc : String → List RawComment)
    (d : Staged) : List RawComment :=
  match d.comments, vidsOf fv d with
  | [], v :: vs => ((v :: vs).map (fun x => fc x.video_id)).flatten
  | cs, _ => cs

/-- The migration-loop body for one staged channel.  Returns the new run
state, the updated staging entry (the loop mutates the entry's `videos` /
`comments` lists in place when it lazily fetches them), and `true` when the
body ran to completion — `false` when a transformer raised, which aborts the
run. -/
def runChannel (fv : ChannelRow → List RawVideo) (fc : String → List RawComment)
    (oracle : Nat → Bool) (cid : String) (d : Staged) (s : MigState) :
    MigState × Staged × Bool :=
  let dfc := process_channel_data d.channel_info
  let s1 := if dfc.isEmpty then s
    else applyInsert oracle s (.chanW cid)
      (fun db => { db with channels := insert_channel_data db.channels dfc })
  let vids := vidsOf fv d
  match process_video_data vids with
  | .error _ => (s1, { d with videos := vids }, false)
  | .ok vrows =>
    let s2 := if vrows.isEmpty then s1
      else applyInsert oracle s1 (.vidW cid)
        (fun db => { db with videos := insert_video_data db.videos vrows })
    let coms := comsOf fv fc d
    match process_comment_data coms with
    | .error _ => (s2, { d with videos := vids, comments := coms }, false)
    | .ok crows =>
      let s3 := if crows.isEmpty then s2
        else applyInsert oracle s2 (.comW cid)
          (fun db => { db with comments := insert_comment_data db.comments crows })
      (s3, { d with videos := vids, comments := coms }, true)

/-- The `for channel_id, data in st.session_state[...].items():` loop, with
the abort-on-exception semantics of a Streamlit script: once a channel body
raises, nothing further executes.  Returns the final state, the staging dict
as mutated so far, and whether the loop completed. -/
def migrateGo (fv : ChannelRow → List RawVideo) (fc : String → List RawComment)
    (oracle : Nat → Bool) :
    List (String × Staged) → MigState → MigState × List (String × Staged) × Bool
  | [], s => (s, [], true)
  | (cid, d) :: rest, s =>
    let step := runChannel fv fc oracle cid d s
    if step.2.2 then
      let next := migrateGo fv fc oracle rest step.1
      (next.1, (cid, step.2.1) :: next.2.1, next.2.2)
    else (step.1, (cid, step.2.1) :: rest, false)

/-- Result of one click of "Migrate All Collected Data to SQL Database". -/
structure MigResult where
  db : Warehouse
  staging : List (String × Staged)
  trace : List WriteEvent
  raised : Bool
  deriving DecidableEq, Repr

/-- The whole button handler: run the loop and then — only if no exception
aborted the script — execute
`st.session_state['collected_channels_data'] = {}`, clearing the staging
dict.  Storage failures do not abort (they are swallowed inside
`DatabaseManager`), so a run whose inserts all failed still clears. -/
def migrateRun (fv : ChannelRow → List RawVideo) (fc : String → List RawComment)
    (oracle : Nat → Bool) (staged : List (String × Staged)) (db : Warehouse) :
    MigResult :=
  let res := migrateGo fv fc oracle staged { db := db, callIdx := 0, trace := [] }
  { db := res.1.db
    staging := if res.2.2 then [] else res.2.1
    trace := res.1.trace
    raised := !res.2.2 }

/-- **C1.**  The claim — staging is cleared only after every staged channel
loaded fully and successfully, and is retained when any load fails — is
contradicted by the code: `DatabaseManager` swallows storage errors, the
loop never learns of them, and the handler clears
`st.session_state['collected_channels_data']` unconditionally after the
loop.  Concretely: one staged channel, a storage layer failing every insert
call.  The channel insert call is issued (trace `[chanW "c1"]`) and rolls
back (the warehouse stays empty — the load failed), yet the staging dict is
cleared and no exception is reported. -/
theorem claim_C1_code_bug :
    migrateRun (fun _ => []) (fun _ => []) (fun _ => true)
      [("c1",
        { channel_info := some
            { channel_id := "c1", channel_name := "N", subscribers := 1,
              total_videos := 0, uploads_playlist_id := "u" },
          videos := [], comments := [] })]
      { channels := [], videos := [], comments := [] }
    = { db := { channels := [], videos := [], comments := [] },
        staging := [],
        trace := [.chanW "c1"],
        raised := false } := by
  decide

/-- The insert calls one channel's loop body issues, in source order:
channel row (when the channel DataFrame is nonempty), then video rows (when
the transformer succeeded and produced rows), then comment rows — truncated
where a transformer raises. -/
def channelBlock (fv : ChannelRow → List RawVideo)
    (fc : String → List RawComment) (cid : String) (d : Staged) :
    List WriteEvent :=
  let ev1 : List WriteEvent :=
    if (process_channel_data d.channel_info).isEmpty then [] else [.chanW cid]
  match process_video_data (vidsOf fv d) with
  | .error _ => ev1
  | .ok vrows =>
    let ev2 := ev1 ++ (if vrows.isEmpty then [] else [.vidW cid])
    match process_comment_data (comsOf fv fc d) with
    | .error _ => ev2
    | .ok crows => ev2 ++ (if crows.isEmpty then [] else [.comW cid])

/-- Whether one channel's loop body runs to completion (no transformer
exception). -/
def channelOk (fv : ChannelRow → List RawVideo)
    (fc : String → List RawComment) (d : Staged) : Bool :=
  match process_video_data (vidsOf fv d) with
  | .error _ => false
  | .ok _ =>
    match process_comment_data (comsOf fv fc d) with
    | .error _ => false
    | .ok _ => true

/-- The trace of insert calls of a whole migration run: the per-channel
blocks in staging order, truncated after the first channel whose body
raised. -/
def runBlocks (fv : ChannelRow → List RawVideo)
    (fc : String → List RawComment) :
    List (String × Staged) → List WriteEvent
  | [] => []
  | (cid, d) :: rest =>
    channelBlock fv fc cid d
      ++ (if channelOk fv fc d then runBlocks fv fc rest else [])

lemma runChannel_flag (fv : ChannelRow → List RawVideo)
    (fc : String → List RawComment) (oracle : Nat → Bool) (cid : String)
    (d : Staged) (s : MigState) :
    (runChannel fv fc oracle cid d s).2.2 = channelOk fv fc d := by
  unfold runChannel channelOk
  cases hv : process_video_data (vidsOf fv d) with
  | error e => simp [hv]
  | ok vrows =>
    cases hc : process_comment_data (comsOf fv fc d) with
    | error e => simp [hv, hc]
    | ok crows => simp [hv, hc]

lemma runChannel_trace (fv : ChannelRow → List RawVideo)
    (fc : String → List RawComment) (oracle : Nat → Bool) (cid : String)
    (d : Staged) (s : MigState) :
    (runChannel fv fc oracle cid d s).1.trace
      = s.trace ++ channelBlock fv fc cid d := by
  unfold runChannel channelBlock
  cases hv : process_video_data (vidsOf fv d) with
  | error e =>
    by_cases h1 : (process_channel_data d.channel_info).isEmpty <;>
      simp [hv, h1, applyInsert]
  | ok vrows =>
    cases hc : process_comment_data (comsOf fv fc d) with
    | error e =>
      by_cases h1 : (process_channel_data d.channel_info).isEmpty <;>
        by_cases h2 : vrows.isEmpty <;>
          simp [hv, hc, h1, h2, applyInsert, List.append_assoc]
    | ok crows =>
      by_cases h1 : (process_channel_data d.channel_info).isEmpty <;>
        by_cases h2 : vrows.isEmpty <;>
          by_cases h3 : crows.isEmpty <;>
            simp [hv, hc, h1, h2, h3, applyInsert, List.append_assoc]

lemma migrateGo_trace (fv : ChannelRow → List RawVideo)
    (fc : String → List RawComment) (oracle : Nat → Bool) :
    ∀ (staged : List (String × Staged)) (s : MigState),
      (migrateGo fv fc oracle staged s).1.trace
        = s.trace ++ runBlocks fv fc staged := by
  intro staged
  induction staged with
  | nil => intro s; simp [migrateGo, runBlocks]
  | cons p rest ih =>
    intro s
    obtain ⟨cid, d⟩ := p
    simp only [migrateGo]
    rw [runChannel_flag]
    by_cases hok : channelOk fv fc d = true
    · simp only [if_pos hok]
      rw [ih, runChannel_trace, runBlocks, if_pos hok, List.append_assoc]
    · simp only [if_neg hok]
      rw [runChannel_trace, runBlocks, if_neg hok, List.append_nil]

lemma channelBlock_cases (fv : ChannelRow → List RawVideo)
    (fc : String → List RawComment) (cid : String) (d : Staged)
    (e : WriteEvent) (he : e ∈ channelBlock fv fc cid d) :
    e = .chanW cid ∨ e = .vidW cid ∨ e = .comW cid := by
  revert he
  unfold channelBlock
  cases hv : process_video_data (vidsOf fv d) with
  | error _ =>
    intro he
    split_ifs at he <;> simp_all
  | ok vrows =>
    cases hc : process_comment_data (comsOf fv fc d) with
    | error _ =>
      intro he
      split_ifs at he <;> simp_all
      tauto
    | ok crows =>
      intro he
      split_ifs at he <;> simp_all <;> tauto

lemma channelBlock_cid (fv : ChannelRow → List RawVideo)
    (fc : String → List RawComment) (cid : String) (d : Staged)
    (e : WriteEvent) (he : e ∈ channelBlock fv fc cid d) : evCid e = cid := by
  rcases channelBlock_cases fv fc cid d e he with rfl | rfl | rfl <;> rfl

lemma channelBlock_shape (fv : ChannelRow → List RawVideo)
    (fc : String → List RawComment) (cid : String) (d : Staged)
    (h : d.channel_info.isSome = true) :
    channelBlock fv fc cid d = [.chanW cid]
    ∨ channelBlock fv fc cid d = [.chanW cid, .vidW cid]
    ∨ channelBlock fv fc cid d = [.chanW cid, .comW cid]
    ∨ channelBlock fv fc cid d = [.chanW cid, .vidW cid, .comW cid] := by
  obtain ⟨ci, hci⟩ := Option.isSome_iff_exists.mp h
  have h1 : (process_channel_data d.channel_info).isEmpty = false := by
    rw [hci]; rfl
  unfold channelBlock
  rw [h1]
  cases hv : process_video_data (vidsOf fv d) with
  | error _ => simp [hv]
  | ok vrows =>
    cases hc : process_comment_data (comsOf fv fc d) with
    | error _ => by_cases h2 : vrows.isEmpty <;> simp [hv, hc, h2]
    | ok crows =>
      by_cases h2 : vrows.isEmpty <;> by_cases h3 : crows.isEmpty <;>
        simp [hv, hc, h2, h3]

lemma runBlocks_cids (fv : ChannelRow → List RawVideo)
    (fc : String → List RawComment) :
    ∀ (staged : List (String × Staged)) (e : WriteEvent),
      e ∈ runBlocks fv fc staged → evCid e ∈ staged.map Prod.fst := by
  intro staged
  induction staged with
  | nil => intro e he; simp [runBlocks] at he
  | cons p rest ih =>
    intro e he
    obtain ⟨cid, d⟩ := p
    rw [runBlocks] at he
    rcases List.mem_append.mp he with he | he
    · simp [channelBlock_cid fv fc cid d e he]
    · by_cases hok : channelOk fv fc d
      · rw [if_pos hok] at he
        simp only [List.map_cons, List.mem_cons]
        exact Or.inr (ih e he)
      · rw [if_neg hok] at he
        simp at he

lemma runBlocks_split (fv : ChannelRow → List RawVideo)
    (fc : String → List RawComment) :
    ∀ (l1 l2 : List (String × Staged)) (c : String) (d : Staged),
      c ∉ l1.map Prod.fst → c ∉ l2.map Prod.fst →
      d.channel_info.isSome = true →
      ∃ pre blk post,
        runBlocks fv fc (l1 ++ (c, d) :: l2) = pre ++ blk ++ post
        ∧ (∀ e ∈ pre, evCid e ≠ c) ∧ (∀ e ∈ post, evCid e ≠ c)
        ∧ (blk = [] ∨ blk = [.chanW c] ∨ blk = [.chanW c, .vidW c]
            ∨ blk = [.chanW c, .comW c]
            ∨ blk = [.chanW c, .vidW c, .comW c]) := by
  intro l1
  induction l1 with
  | nil =>
    intro l2 c d _ hl2 hinfo
    refine ⟨[], channelBlock fv fc c d,
      (if channelOk fv fc d then runBlocks fv fc l2 else []), ?_, ?_, ?_, ?_⟩
    · rw [List.nil_append, runBlocks, List.nil_append]
    · intro e he; simp at he
    · intro e he
      by_cases hok : channelOk fv fc d
      · rw [if_pos hok] at he
        intro hc
        exact hl2 (hc ▸ runBlocks_cids fv fc l2 e he)
      · rw [if_neg hok] at he
        simp at he
    · rcases channelBlock_shape fv fc c d hinfo with h | h | h | h <;>
        simp [h]
  | cons p t ih =>
    intro l2 c d hl1 hl2 hinfo
    obtain ⟨c1, d1⟩ := p
    simp only [List.map_cons, List.mem_cons] at hl1
    push_neg at hl1
    have hc1 : ∀ e ∈ channelBlock fv fc c1 d1, evCid e ≠ c := by
      intro e he hc
      exact hl1.1 (hc ▸ (channelBlock_cid fv fc c1 d1 e he))
    by_cases hok : channelOk fv fc d1
    · obtain ⟨pre, blk, post, heq, hpre, hpost, hshape⟩ :=
        ih l2 c d hl1.2 hl2 hinfo
      refine ⟨channelBlock fv fc c1 d1 ++ pre, blk, post, ?_, ?_, hpost, hshape⟩
      · rw [List.cons_append, runBlocks, if_pos hok, heq]
        simp [List.append_assoc]
      · intro e he
        rcases List.mem_append.mp he with he | he
        · exact hc1 e he
        · exact hpre e he
    · refine ⟨channelBlock fv fc c1 d1, [], [], ?_, hc1, ?_, Or.inl rfl⟩
      · rw [List.cons_append, runBlocks, if_neg hok]
        simp
      · intro e he; simp at he

/-- **C9.**  Within one migration run, each staged channel's insert calls
form one contiguous block of the trace, in the order channel row, then video
rows, then comment rows (each later kind possibly absent, the channel write
always first), and no other insert call of the run belongs to that channel —
so every write of a child row is preceded by the write of its parent
channel's row, and every comment write follows every video write of its
channel.  Hypotheses: staging keys are unique (it is a dict) and each staged
entry holds channel info (the app only stages after a successful channel
fetch). -/
theorem claim_C9_write_order
    (fv : ChannelRow → List RawVideo) (fc : String → List RawComment)
    (oracle : Nat → Bool) (staged : List (String × Staged)) (db : Warehouse)
    (c : String) (d : Staged)
    (hnd : (staged.map Prod.fst).Nodup)
    (hmem : (c, d) ∈ staged)
    (hinfo : d.channel_info.isSome = true) :
    ∃ pre blk post,
      (migrateRun fv fc oracle staged db).trace = pre ++ blk ++ post
      ∧ (∀ e ∈ pre, evCid e ≠ c) ∧ (∀ e ∈ post, evCid e ≠ c)
      ∧ (blk = [] ∨ blk = [.chanW c] ∨ blk = [.chanW c, .vidW c]
          ∨ blk = [.chanW c, .comW c]
          ∨ blk = [.chanW c, .vidW c, .comW c]) := by
  obtain ⟨l1, l2, rfl⟩ := List.append_of_mem hmem
  have htrace : (migrateRun fv fc oracle (l1 ++ (c, d) :: l2) db).trace
      = runBlocks fv fc (l1 ++ (c, d) :: l2) := by
    simp only [migrateRun]
    rw [migrateGo_trace]
    simp
  rw [htrace]
  rw [List.map_append, List.map_cons] at hnd
  have h1 := hnd.of_append_left
  have h2 := hnd.of_append_right
  rw [List.nodup_cons] at h2
  have hdisj := List.disjoint_of_nodup_append hnd
  refine runBlocks_split fv fc l1 l2 c d ?_ h2.1 hinfo
  intro hc
  exact hdisj hc (List.mem_cons_self _ _)

/-- A concretely staged channel (one staged video and one staged comment)
used to exercise the write-order theorem. -/
def c9Entry : Staged :=
  { channel_info := some
      { channel_id := "c1", channel_name := "N", subscribers := 1,
        total_videos := 1, uploads_playlist_id := "u" },
    videos := [{ video_id := "v1", channel_id := "c1", title := "t",
                 published_date := some (.pyStr "2023-01-01T00:00:00Z"),
                 views := 1, likes := 1, comments_count := 1,
                 duration := some (.pyStr "PT5M") }],
    comments := [{ comment_id := "k1", video_id := "v1",
                   author := "a", comment_text := "x",
                   published_date := some (.pyStr "2023-01-02T00:00:00Z") }] }

/-- Witness for C9: a run on one concretely staged channel with one staged
video and one staged comment — the theorem's decomposition applies. -/
theorem claim_C9_witness :
    ∃ pre blk post,
      (migrateRun (fun _ => []) (fun _ => []) (fun _ => false)
        [("c1", c9Entry)]
        { channels := [], videos := [], comments := [] }).trace
        = pre ++ blk ++ post
      ∧ (∀ e ∈ pre, evCid e ≠ "c1") ∧ (∀ e ∈ post, evCid e ≠ "c1")
      ∧ (blk = [] ∨ blk = [.chanW "c1"] ∨ blk = [.chanW "c1", .vidW "c1"]
          ∨ blk = [.chanW "c1", .comW "c1"]
          ∨ blk = [.chanW "c1", .vidW "c1", .comW "c1"]) :=
  claim_C9_write_order (fun _ => []) (fun _ => []) (fun _ => false)
    [("c1", c9Entry)] { channels := [], videos := [], comments := [] }
    "c1" c9Entry (by decide) (by decide) (by decide)

/-- Witness for the amended C3: a well-formed one-video list (the spec's
example record, `duration="PT5M"`, `published_date="2023-01-01T00:00:00Z"`)
is transformed without error into exactly one row. -/
theorem claim_C3_witness :
    ∃ rows, process_video_data
      [{ video_id := "v1", channel_id := "c1", title := "t",
         published_date := some (.pyStr "2023-01-01T00:00:00Z"),
         views := 5, likes := 2, comments_count := 1,
         duration := some (.pyStr "PT5M") }] = .ok rows ∧ rows.length = 1 :=
  claim_C3_amended.2.2.1 _ (by decide) (by decide) (by decide) (by decide)
